import Mathlib

/-!
Verification of the IgnoreLens cumulative pattern-evaluation engine.

Shallow embedding of the current revision of the engine:
- `IgnoreParser.parseLine` (ignoreParser, the revision whose behaviour the
  repository's own parser test suite asserts: comments only at column 0,
  escaped trailing space *or* tab),
- `PatternMatcher.findMatches` (patternMatcher; the npm `ignore` glob engine
  is external to the repository and is abstracted as a function parameter),
- `isUnderIgnoredDir`, `extractDirectoryPrefixes`, `calculateAdvancedCount`
  (countCalculator, the revision using structural suffix-stripping for
  negation directory release and populating `ignoredDirs` only from
  wildcard-free explicit directory patterns).

Strings are modelled as `List Char`; JavaScript `Set<string>` is modelled as
`Finset (List Char)`; in-place mutation is modelled by returning the updated
sets alongside the result record.
-/

namespace IgnoreLens

/-- Strings are modelled as lists of characters. -/
abbrev Str := List Char

/-! ## Line classifier (IgnoreParser.parseLine) -/

/-- The JavaScript regular-expression class `\s` (whitespace), as used by
`processedLine.replace(/\s+$/, '')`. -/
def isWsChar (c : Char) : Bool :=
  c = ' ' || c = '\t' || c = '\n' || c = '\r' || c = '\x0b' || c = '\x0c' ||
  c = '\u00A0' || c = '\u1680' || ('\u2000' ≤ c && c ≤ '\u200A') ||
  c = '\u2028' || c = '\u2029' || c = '\u202F' || c = '\u205F' ||
  c = '\u3000' || c = '\uFEFF'

/-- The test `line.match(/\\([ \t])$/) !== null`: the line ends with a
backslash immediately followed by one final space or tab. -/
def hasTrailingEscape (line : Str) : Bool :=
  match line.reverse with
  | c :: c2 :: _ => c2 = '\\' && (c = ' ' || c = '\t')
  | _ => false

/-- Translation of `processedLine.replace(/\s+$/, '')`: strip all trailing
whitespace. -/
def rstrip (line : Str) : Str := (line.reverse.dropWhile isWsChar).reverse

/-- The trailing-whitespace step of `IgnoreParser.parseLine`: if the line ends
with a backslash followed by exactly one space or tab, drop the backslash and
keep that whitespace character (`processedLine.slice(0, -2) + match[1]`);
otherwise strip all trailing whitespace. -/
def processText (line : Str) : Str :=
  match line.reverse with
  | c :: c2 :: rest =>
    if c2 = '\\' && (c = ' ' || c = '\t') then (c :: rest).reverse else rstrip line
  | _ => rstrip line

/-- Line type `LineType` from types.ts. -/
inductive LineType
  | blank
  | comment
  | pattern
deriving DecidableEq, Repr

/-- Record `ParsedLine` from types.ts. -/
structure ParsedLine where
  type : LineType
  pattern : Str
  isNegation : Bool
  isDirectory : Bool
  rawText : Str
deriving DecidableEq, Repr

/-- Translation of `IgnoreParser.parseLine`: classify one raw ignore-file
line. -/
def parseLine (line : Str) : ParsedLine :=
  let p := processText line
  if p = [] then
    ⟨LineType.blank, [], false, false, line⟩
  else if ['#'].isPrefixOf p then
    ⟨LineType.comment, [], false, false, line⟩
  else
    let p1 := if ['\\', '#'].isPrefixOf p then p.drop 1 else p
    if ['!'].isPrefixOf p1 then
      ⟨LineType.pattern, p1, true, ['/'].isSuffixOf p1, line⟩
    else
      let p2 := if ['\\', '!'].isPrefixOf p1 then p1.drop 1 else p1
      ⟨LineType.pattern, p2, false, ['/'].isSuffixOf p2, line⟩

/-! ## Path matcher (PatternMatcher.findMatches) -/

/-- Record `MatchResult` from types.ts. -/
structure MatchResult where
  pattern : Str
  matchingFiles : List Str
  isNegation : Bool
deriving DecidableEq, Repr

/-- Translation of `PatternMatcher.findMatches`. The glob decision
`ig.ignores` of the
external npm `ignore` package (built from the single cleaned pattern) is
abstracted as the function argument `ignores : pattern → path → Bool`. -/
def findMatches (ignores : Str → Str → Bool) (pattern : Str) (files : List Str) :
    MatchResult :=
  let isNeg := ['!'].isPrefixOf pattern
  let cleanPattern := if isNeg then pattern.drop 1 else pattern
  { pattern := pattern
    matchingFiles := files.filter (fun f => ignores cleanPattern f)
    isNegation := isNeg }

/-! ## Cumulative evaluator (countCalculator) -/

/-- Record `AdvancedCountResult` from countCalculator. -/
structure AdvancedCountResult where
  actionCount : Nat
  noActionCount : Nat
  blockedCount : Nat
  setSize : Nat
deriving DecidableEq, Repr

/-- Translation of `isUnderIgnoredDir`: true when some ignored directory
prefix is a prefix
of the file path (`filePath.startsWith(dir)` for some `dir` in the set). -/
def isUnderIgnoredDir (filePath : Str) (ignoredDirs : Finset Str) : Bool :=
  decide (∃ d ∈ ignoredDirs, d.isPrefixOf filePath = true)

/-- Translation of `firstFile.indexOf('/')` followed by
`firstFile.substring(0, slashIndex + 1)`:
the prefix of the path up to and including its first slash, when one exists. -/
def firstSlashPrefix : Str → Option Str
  | [] => none
  | c :: rest => if c = '/' then some ['/'] else (firstSlashPrefix rest).map (c :: ·)

/-- Translation of the wildcard test `/[*?]/.test(s)`. -/
def hasWildcards (s : Str) : Bool := s.any (fun c => c = '*' || c = '?')

/-- Translation of `extractDirectoryPrefixes` from countCalculator: only an
explicit directory
pattern (ends with `/`) with no `*`/`?` wildcard before its trailing slash and
at least one matched file contributes a prefix, taken from the first matched
file up to its first `/`. -/
def extractDirectoryPrefixes (matchingFiles : List Str) (pattern : Str)
    (isDirectory : Bool) : Finset Str :=
  match matchingFiles with
  | [] => ∅
  | firstFile :: _ =>
    if isDirectory then
      let patternWithoutTrailingSlash :=
        if ['/'].isSuffixOf pattern then pattern.dropLast else pattern
      if hasWildcards patternWithoutTrailingSlash then ∅
      else
        match firstSlashPrefix firstFile with
        | some pre => {pre}
        | none => ∅
    else ∅

/-- Translation of `pattern.startsWith('!') ? pattern.substring(1) : pattern`. -/
def stripNegation (p : Str) : Str := if ['!'].isPrefixOf p then p.drop 1 else p

/-- The directory prefix the negation branch of `calculateAdvancedCount`
deletes from `ignoredDirs`, derived by structural suffix-stripping from the
pattern (already stripped of its leading `!`): the pattern itself when it ends
with `/`; `slice(0, -2)` when it ends with `/**`; `slice(0, -1)` when it ends
with `/*`; nothing otherwise. -/
def releasedPrefix (q : Str) : Option Str :=
  if ['/'].isSuffixOf q then some q
  else if ['/', '*', '*'].isSuffixOf q then some q.dropLast.dropLast
  else if ['/', '*'].isSuffixOf q then some q.dropLast
  else none

/-- The negation directory-release step of `calculateAdvancedCount`. -/
def releaseDirs (pattern : Str) (dirs : Finset Str) : Finset Str :=
  match releasedPrefix (stripNegation pattern) with
  | some d => dirs.erase d
  | none => dirs

/-- One iteration of the per-file loop of `calculateAdvancedCount`; the
accumulator is `(actionCount, noActionCount, blockedCount, cumulativeSet)`. -/
def stepFile (isNegation : Bool) (ignoredDirs : Finset Str)
    (acc : Nat × Nat × Nat × Finset Str) (file : Str) : Nat × Nat × Nat × Finset Str :=
  let (a, na, b, s) := acc
  if isNegation then
    if isUnderIgnoredDir file ignoredDirs then (a, na, b + 1, s)
    else if file ∈ s then (a + 1, na, b, s.erase file)
    else (a, na + 1, b, s)
  else
    if file ∈ s then (a, na + 1, b, s)
    else (a + 1, na, b, insert file s)

/-- Translation of `calculateAdvancedCount`. In the source the two sets are
mutated in
place; here the updated `cumulativeSet` and `ignoredDirs` are returned as the
second and third components. -/
def calculateAdvancedCount (matchingFiles : List Str) (isNegation : Bool)
    (isDirectory : Bool) (cumulativeSet : Finset Str) (ignoredDirs : Finset Str)
    (pattern : Str) : AdvancedCountResult × Finset Str × Finset Str :=
  let dirs1 := if isNegation then releaseDirs pattern ignoredDirs else ignoredDirs
  let out := matchingFiles.foldl (stepFile isNegation dirs1) (0, 0, 0, cumulativeSet)
  let dirs2 :=
    if isNegation then dirs1
    else dirs1 ∪ extractDirectoryPrefixes matchingFiles pattern isDirectory
  (⟨out.1, out.2.1, out.2.2.1, out.2.2.2.card⟩, out.2.2.2, dirs2)

/-! ## Loop invariants of the per-file loop -/

/-- Invariant of the per-file loop for a normal (non-negation) pattern:
`blockedCount` is untouched, each file accounts for exactly one of
`actionCount`/`noActionCount`, the set grows by exactly `actionCount`
elements, and the set only grows. -/
lemma foldl_stepFile_normal (dirs : Finset Str) (files : List Str) :
    ∀ (a na b : Nat) (s : Finset Str) (a' na' b' : Nat) (s' : Finset Str),
      files.foldl (stepFile false dirs) (a, na, b, s) = (a', na', b', s') →
      b' = b ∧ a' + na' = a + na + files.length ∧
      s'.card + a = s.card + a' ∧ s ⊆ s' := by
  induction files with
  | nil =>
    intro a na b s a' na' b' s' h
    simp only [List.foldl_nil, Prod.mk.injEq] at h
    obtain ⟨ha, hna, hb, hs⟩ := h
    subst ha; subst hna; subst hb; subst hs
    simp
  | cons f t ih =>
    intro a na b s a' na' b' s' h
    simp only [List.foldl_cons] at h
    by_cases hf : f ∈ s
    · simp only [stepFile, Bool.false_eq_true, if_false, if_pos hf] at h
      obtain ⟨hb, hsum, hcard, hsub⟩ := ih a (na + 1) b s a' na' b' s' h
      exact ⟨hb, by simpa [Nat.add_assoc, Nat.add_comm, Nat.add_left_comm] using hsum,
        hcard, hsub⟩
    · simp only [stepFile, Bool.false_eq_true, if_false, if_neg hf] at h
      obtain ⟨hb, hsum, hcard, hsub⟩ := ih (a + 1) na b (insert f s) a' na' b' s' h
      refine ⟨hb, by simp only [List.length_cons]; omega, ?_,
        fun x hx => hsub (Finset.mem_insert_of_mem hx)⟩
      rw [Finset.card_insert_of_not_mem hf] at hcard
      omega

/-- Invariant of the per-file loop for a negation pattern: the blocked tally
counts exactly the files under an ignored directory prefix, the action and
no-action tallies cover exactly the remaining files, the set shrinks by
exactly `actionCount` elements, only shrinks, and no file under an ignored
directory prefix ever changes membership. -/
lemma foldl_stepFile_negation (dirs : Finset Str) (files : List Str) :
    ∀ (a na b : Nat) (s : Finset Str) (a' na' b' : Nat) (s' : Finset Str),
      files.foldl (stepFile true dirs) (a, na, b, s) = (a', na', b', s') →
      b' = b + files.countP (fun f => isUnderIgnoredDir f dirs) ∧
      a' + na' = a + na + files.countP (fun f => !isUnderIgnoredDir f dirs) ∧
      s'.card + a' = s.card + a ∧ s' ⊆ s ∧
      (∀ g, isUnderIgnoredDir g dirs = true → (g ∈ s' ↔ g ∈ s)) := by
  induction files with
  | nil =>
    intro a na b s a' na' b' s' h
    simp only [List.foldl_nil, Prod.mk.injEq] at h
    obtain ⟨ha, hna, hb, hs⟩ := h
    subst ha; subst hna; subst hb; subst hs
    simp
  | cons f t ih =>
    intro a na b s a' na' b' s' h
    simp only [List.foldl_cons] at h
    by_cases hu : isUnderIgnoredDir f dirs
    · simp only [stepFile, if_true, if_pos hu] at h
      obtain ⟨hb, hsum, hcard, hsub, hpres⟩ := ih a na (b + 1) s a' na' b' s' h
      refine ⟨?_, ?_, hcard, hsub, hpres⟩
      · rw [List.countP_cons]; simp [hu] at hb ⊢; omega
      · rw [List.countP_cons]; simp [hu] at hsum ⊢; omega
    · by_cases hf : f ∈ s
      · simp only [stepFile, if_true, if_neg hu, if_pos hf] at h
        obtain ⟨hb, hsum, hcard, hsub, hpres⟩ :=
          ih (a + 1) na b (s.erase f) a' na' b' s' h
        have hkey : (s.erase f).card + 1 = s.card := Finset.card_erase_add_one hf
        refine ⟨?_, ?_, by omega, fun x hx => Finset.erase_subset f s (hsub hx), ?_⟩
        · rw [List.countP_cons]; simp [hu] at hb ⊢; omega
        · rw [List.countP_cons]; simp [hu] at hsum ⊢; omega
        · intro g hg
          have hgf : g ≠ f := by
            intro hgf; subst hgf; rw [hg] at hu; exact hu rfl
          rw [hpres g hg, Finset.mem_erase]
          exact ⟨fun hx => hx.2, fun hx => ⟨hgf, hx⟩⟩
      · simp only [stepFile, if_true, if_neg hu, if_neg hf] at h
        obtain ⟨hb, hsum, hcard, hsub, hpres⟩ := ih a (na + 1) b s a' na' b' s' h
        refine ⟨?_, ?_, hcard, hsub, hpres⟩
        · rw [List.countP_cons]; simp [hu] at hb ⊢; omega
        · rw [List.countP_cons]; simp [hu] at hsum ⊢; omega

/-- Counting the files that satisfy a Boolean predicate and those that fail
it covers the whole list. -/
lemma countP_bool_split (p : Str → Bool) (l : List Str) :
    l.countP p + l.countP (fun x => !p x) = l.length := by
  induction l with
  | nil => simp
  | cons x t ih =>
    rw [List.countP_cons, List.countP_cons]
    by_cases h : p x <;> simp [h] <;> omega

/-- The negation release step never adds to `ignoredDirs`. -/
lemma releaseDirs_subset (pattern : Str) (dirs : Finset Str) :
    releaseDirs pattern dirs ⊆ dirs := by
  unfold releaseDirs
  cases hq : releasedPrefix (stripNegation pattern) with
  | none => exact fun x hx => hx
  | some q => exact Finset.erase_subset q dirs

/-- A prefix different from the one the release step strips survives it. -/
lemma mem_releaseDirs (pattern d : Str) (dirs : Finset Str)
    (hmem : d ∈ dirs) (hrel : releasedPrefix (stripNegation pattern) ≠ some d) :
    d ∈ releaseDirs pattern dirs := by
  unfold releaseDirs
  cases hq : releasedPrefix (stripNegation pattern) with
  | none => exact hmem
  | some q =>
    rw [Finset.mem_erase]
    refine ⟨?_, hmem⟩
    intro hdq
    exact hrel (by rw [hq, hdq])

/-- C1: for every single evaluator call, if `isNegation` is false then
`actionCount + noActionCount` equals the number of matching files,
`blockedCount` is `0`, and the returned `setSize` is the prior ignored-set
size plus `actionCount`; if `isNegation` is true then
`actionCount + noActionCount + blockedCount` equals the number of matching
files and the returned `setSize` is the prior ignored-set size minus
`actionCount`. -/
theorem calculateAdvancedCount_conservation
    (matchingFiles : List Str) (isDirectory : Bool)
    (cumulativeSet ignoredDirs : Finset Str) (pattern : Str) :
    (let r := (calculateAdvancedCount matchingFiles false isDirectory cumulativeSet
        ignoredDirs pattern).1
     r.actionCount + r.noActionCount = matchingFiles.length ∧
     r.blockedCount = 0 ∧ r.setSize = cumulativeSet.card + r.actionCount) ∧
    (let r := (calculateAdvancedCount matchingFiles true isDirectory cumulativeSet
        ignoredDirs pattern).1
     r.actionCount + r.noActionCount + r.blockedCount = matchingFiles.length ∧
     r.setSize = cumulativeSet.card - r.actionCount) := by
  obtain ⟨⟨a1, na1, b1, s1⟩, h1⟩ :
      ∃ r, matchingFiles.foldl (stepFile false ignoredDirs) (0, 0, 0, cumulativeSet) = r :=
    ⟨_, rfl⟩
  obtain ⟨⟨a2, na2, b2, s2⟩, h2⟩ :
      ∃ r, matchingFiles.foldl (stepFile true (releaseDirs pattern ignoredDirs))
        (0, 0, 0, cumulativeSet) = r :=
    ⟨_, rfl⟩
  obtain ⟨e1, e2, e3, -⟩ :=
    foldl_stepFile_normal ignoredDirs matchingFiles 0 0 0 cumulativeSet a1 na1 b1 s1 h1
  obtain ⟨f1, f2, f3, -, -⟩ :=
    foldl_stepFile_negation (releaseDirs pattern ignoredDirs) matchingFiles
      0 0 0 cumulativeSet a2 na2 b2 s2 h2
  have hlen := countP_bool_split
    (fun f => isUnderIgnoredDir f (releaseDirs pattern ignoredDirs)) matchingFiles
  simp only [calculateAdvancedCount, Bool.false_eq_true, if_false, if_true, h1, h2]
  exact ⟨⟨by omega, by omega, by omega⟩, by omega, by omega⟩

/-- C9: every single evaluator call moves both state sets in only one
direction: a normal call only grows the ignored set and never removes an
ignored-directory prefix; a negation call only shrinks the ignored set and
never adds an ignored-directory prefix. -/
theorem calculateAdvancedCount_monotone
    (matchingFiles : List Str) (isDirectory : Bool)
    (cumulativeSet ignoredDirs : Finset Str) (pattern : Str) :
    (cumulativeSet ⊆ (calculateAdvancedCount matchingFiles false isDirectory
        cumulativeSet ignoredDirs pattern).2.1 ∧
     ignoredDirs ⊆ (calculateAdvancedCount matchingFiles false isDirectory
        cumulativeSet ignoredDirs pattern).2.2) ∧
    ((calculateAdvancedCount matchingFiles true isDirectory
        cumulativeSet ignoredDirs pattern).2.1 ⊆ cumulativeSet ∧
     (calculateAdvancedCount matchingFiles true isDirectory
        cumulativeSet ignoredDirs pattern).2.2 ⊆ ignoredDirs) := by
  obtain ⟨⟨a1, na1, b1, s1⟩, h1⟩ :
      ∃ r, matchingFiles.foldl (stepFile false ignoredDirs) (0, 0, 0, cumulativeSet) = r :=
    ⟨_, rfl⟩
  obtain ⟨⟨a2, na2, b2, s2⟩, h2⟩ :
      ∃ r, matchingFiles.foldl (stepFile true (releaseDirs pattern ignoredDirs))
        (0, 0, 0, cumulativeSet) = r :=
    ⟨_, rfl⟩
  obtain ⟨-, -, -, hgrow⟩ :=
    foldl_stepFile_normal ignoredDirs matchingFiles 0 0 0 cumulativeSet a1 na1 b1 s1 h1
  obtain ⟨-, -, -, hshrink, -⟩ :=
    foldl_stepFile_negation (releaseDirs pattern ignoredDirs) matchingFiles
      0 0 0 cumulativeSet a2 na2 b2 s2 h2
  simp only [calculateAdvancedCount, Bool.false_eq_true, if_false, if_true, h1, h2]
  exact ⟨⟨hgrow, Finset.subset_union_left⟩, hshrink, releaseDirs_subset pattern ignoredDirs⟩

/-- A non-directory pattern contributes no directory prefix. -/
lemma extractDirectoryPrefixes_not_dir (files : List Str) (pattern : Str) :
    extractDirectoryPrefixes files pattern false = ∅ := by
  cases files <;> simp [extractDirectoryPrefixes]

/-- Membership in the extracted prefixes forces an explicit wildcard-free
directory pattern with at least one matched file. -/
lemma mem_extractDirectoryPrefixes (files : List Str) (pattern : Str) (isDir : Bool)
    (d : Str) (hd : d ∈ extractDirectoryPrefixes files pattern isDir) :
    isDir = true ∧
    hasWildcards (if ['/'].isSuffixOf pattern then pattern.dropLast else pattern) = false ∧
    files ≠ [] := by
  cases files with
  | nil => simp [extractDirectoryPrefixes] at hd
  | cons f t =>
    cases isDir with
    | false =>
      rw [extractDirectoryPrefixes_not_dir] at hd
      simp at hd
    | true =>
      simp only [extractDirectoryPrefixes, if_true] at hd
      by_cases hw : hasWildcards (if ['/'].isSuffixOf pattern then pattern.dropLast else pattern)
      · rw [if_pos hw] at hd
        simp at hd
      · exact ⟨rfl, by simpa using hw, by simp⟩

/-- A list ending in the one-element suffix `[c]` has `c` as its last
element. -/
lemma getLast?_of_suffix_singleton (q : Str) (c : Char)
    (h : [c].isSuffixOf q = true) : q.getLast? = some c := by
  rw [List.isSuffixOf_iff_suffix] at h
  obtain ⟨t, ht⟩ := h
  subst ht
  rw [List.getLast?_append_cons]
  rfl

/-- A pattern ending in `/*` or `/**` does not end in `/`. -/
lemma not_endsSlash_of_endsStar (pattern : Str)
    (h : ['/', '*'].isSuffixOf pattern = true ∨ ['/', '*', '*'].isSuffixOf pattern = true) :
    ['/'].isSuffixOf pattern = false := by
  have hstar : pattern.getLast? = some '*' := by
    rcases h with h | h <;> rw [List.isSuffixOf_iff_suffix] at h <;> obtain ⟨t, ht⟩ := h <;>
      subst ht <;> rw [List.getLast?_append_cons] <;> rfl
  by_contra hs
  have hslash : pattern.getLast? = some '/' :=
    getLast?_of_suffix_singleton pattern '/' (by revert hs; cases ['/'].isSuffixOf pattern <;> simp)
  rw [hstar] at hslash
  simp at hslash

/-- C2: for a non-negation evaluator call whose `isDirectory` flag is the
classifier's (`pattern` ends with `/`), `ignoredDirPrefixes` gains an entry
only when the pattern ends with `/`, contains no `*`/`?` wildcard before the
trailing slash, and at least one file matched; patterns ending in `/*` or
`/**` never add an entry, so a subsequent negation `!dir/file.txt` on a path
ignored only via such a glob pattern reports `actionCount = 1` and
`blockedCount = 0`. -/
theorem extract_prefix_only_explicit_dir
    (matchingFiles : List Str) (cumulativeSet ignoredDirs : Finset Str) (pattern : Str) :
    (∀ d, d ∈ (calculateAdvancedCount matchingFiles false (['/'].isSuffixOf pattern)
          cumulativeSet ignoredDirs pattern).2.2 → d ∉ ignoredDirs →
        ['/'].isSuffixOf pattern = true ∧ hasWildcards pattern.dropLast = false ∧
        matchingFiles ≠ []) ∧
    ((['/', '*'].isSuffixOf pattern = true ∨ ['/', '*', '*'].isSuffixOf pattern = true) →
      (calculateAdvancedCount matchingFiles false (['/'].isSuffixOf pattern)
          cumulativeSet ignoredDirs pattern).2.2 = ignoredDirs) ∧
    ((calculateAdvancedCount ["dir/file.txt".toList] true false
        (calculateAdvancedCount ["dir/file.txt".toList] false false ∅ ∅
          ("dir/*".toList)).2.1
        (calculateAdvancedCount ["dir/file.txt".toList] false false ∅ ∅
          ("dir/*".toList)).2.2
        ("!dir/file.txt".toList)).1.actionCount = 1 ∧
     (calculateAdvancedCount ["dir/file.txt".toList] true false
        (calculateAdvancedCount ["dir/file.txt".toList] false false ∅ ∅
          ("dir/*".toList)).2.1
        (calculateAdvancedCount ["dir/file.txt".toList] false false ∅ ∅
          ("dir/*".toList)).2.2
        ("!dir/file.txt".toList)).1.blockedCount = 0) := by
  refine ⟨?_, ?_, by decide, by decide⟩
  · intro d hd hnot
    simp only [calculateAdvancedCount, Bool.false_eq_true, if_false,
      Finset.mem_union] at hd
    rcases hd with hd | hd
    · exact absurd hd hnot
    · obtain ⟨h1, h2, h3⟩ :=
        mem_extractDirectoryPrefixes matchingFiles pattern _ d hd
      refine ⟨h1, ?_, h3⟩
      rwa [h1, if_pos rfl] at h2
  · intro h
    have hslash := not_endsSlash_of_endsStar pattern h
    simp only [calculateAdvancedCount, Bool.false_eq_true, if_false, hslash,
      extractDirectoryPrefixes_not_dir, Finset.union_empty]

/-- C3: a negation whose pattern (after stripping `!`) ends with `/`, `/**`
or `/*` erases the structurally derived directory prefix from
`ignoredDirPrefixes` regardless of the matched files (also when none match);
the stripping is structural, so `![tmp]/**` releases `[tmp]/`, and the
negation's own matched files are not blocked by the prefix it releases. -/
theorem negation_release_step
    (matchingFiles : List Str) (isDirectory : Bool)
    (cumulativeSet ignoredDirs : Finset Str) (pattern d : Str)
    (hd : releasedPrefix (stripNegation pattern) = some d) :
    (calculateAdvancedCount matchingFiles true isDirectory cumulativeSet ignoredDirs
        pattern).2.2 = ignoredDirs.erase d ∧
    releasedPrefix (stripNegation ("![tmp]/**".toList)) = some ("[tmp]/".toList) ∧
    calculateAdvancedCount [("[tmp]/f.txt".toList)] true false {("[tmp]/f.txt".toList)}
        {("[tmp]/".toList)} ("![tmp]/**".toList) = (⟨1, 0, 0, 0⟩, ∅, ∅) := by
  refine ⟨?_, by decide, by decide⟩
  simp only [calculateAdvancedCount, if_true, releaseDirs, hd]

/-- C5 counterexample: a call with `isNegation = true` and an empty pattern is
not unconditionally a no-op — handed a non-empty matching list whose file is
in the ignored set, the evaluator removes it and reports `actionCount = 1`. -/
theorem negation_empty_pattern_not_noop :
    (calculateAdvancedCount [("a".toList)] true false {("a".toList)} ∅ []).1.actionCount
        = 1 ∧
    (calculateAdvancedCount [("a".toList)] true false {("a".toList)} ∅ []).2.1 = ∅ := by
  decide

/-- C5 (amended): a call with `isNegation = true`, an empty pattern and an
empty matching list — the only shape the malformed combination can reach the
evaluator with, since the matcher returns no files for it — is a no-op: zero
counts, both sets unchanged, and no error (the function is total). The
evaluator does not special-case the empty pattern itself. -/
theorem negation_empty_pattern_noop (isDirectory : Bool)
    (cumulativeSet ignoredDirs : Finset Str) :
    calculateAdvancedCount [] true isDirectory cumulativeSet ignoredDirs [] =
      (⟨0, 0, 0, cumulativeSet.card⟩, cumulativeSet, ignoredDirs) := rfl

/-- C4: a prefix present in `ignoredDirPrefixes` survives any normal call and
any negation call that does not release it; while it is present, a negation
call tallies under `blockedCount` exactly the matching files under some
ignored prefix — in particular every matching file starting with the
surviving prefix — tallies under `actionCount`/`noActionCount` only the
remaining files, and leaves every path starting with that prefix exactly as
ignored as before. -/
theorem directory_blocking
    (matchingFiles : List Str) (isDirectory : Bool)
    (cumulativeSet ignoredDirs : Finset Str) (pattern d : Str)
    (hmem : d ∈ ignoredDirs)
    (hrel : releasedPrefix (stripNegation pattern) ≠ some d) :
    d ∈ (calculateAdvancedCount matchingFiles false isDirectory cumulativeSet
        ignoredDirs pattern).2.2 ∧
    d ∈ (calculateAdvancedCount matchingFiles true isDirectory cumulativeSet
        ignoredDirs pattern).2.2 ∧
    (calculateAdvancedCount matchingFiles true isDirectory cumulativeSet ignoredDirs
        pattern).1.blockedCount =
      matchingFiles.countP
        (fun f => isUnderIgnoredDir f (releaseDirs pattern ignoredDirs)) ∧
    (calculateAdvancedCount matchingFiles true isDirectory cumulativeSet ignoredDirs
        pattern).1.actionCount +
      (calculateAdvancedCount matchingFiles true isDirectory cumulativeSet ignoredDirs
        pattern).1.noActionCount =
      matchingFiles.countP
        (fun f => !isUnderIgnoredDir f (releaseDirs pattern ignoredDirs)) ∧
    (∀ f, d.isPrefixOf f = true →
      isUnderIgnoredDir f (releaseDirs pattern ignoredDirs) = true) ∧
    (∀ f, d.isPrefixOf f = true →
      (f ∈ (calculateAdvancedCount matchingFiles true isDirectory cumulativeSet
          ignoredDirs pattern).2.1 ↔ f ∈ cumulativeSet)) := by
  obtain ⟨⟨a2, na2, b2, s2⟩, h2⟩ :
      ∃ r, matchingFiles.foldl (stepFile true (releaseDirs pattern ignoredDirs))
        (0, 0, 0, cumulativeSet) = r := ⟨_, rfl⟩
  obtain ⟨f1, f2, f3, f4, f5⟩ :=
    foldl_stepFile_negation (releaseDirs pattern ignoredDirs) matchingFiles
      0 0 0 cumulativeSet a2 na2 b2 s2 h2
  have hunder : ∀ f, d.isPrefixOf f = true →
      isUnderIgnoredDir f (releaseDirs pattern ignoredDirs) = true := by
    intro f hf
    have hex : ∃ q ∈ releaseDirs pattern ignoredDirs, q.isPrefixOf f = true :=
      ⟨d, mem_releaseDirs pattern d ignoredDirs hmem hrel, hf⟩
    simpa [isUnderIgnoredDir] using hex
  refine ⟨?_, ?_, ?_, ?_, hunder, ?_⟩
  · simp only [calculateAdvancedCount, Bool.false_eq_true, if_false, Finset.mem_union]
    exact Or.inl hmem
  · simp only [calculateAdvancedCount, if_true]
    exact mem_releaseDirs pattern d ignoredDirs hmem hrel
  · simp only [calculateAdvancedCount, if_true, h2]
    omega
  · simp only [calculateAdvancedCount, if_true, h2]
    omega
  · intro f hf
    simp only [calculateAdvancedCount, if_true, h2]
    exact f5 f (hunder f hf)

/-- C4 witness: with `dist/` an ignored-directory prefix, the negation
`!dist/secret.js` reports its match under `blockedCount`. -/
theorem directory_blocking_witness :
    (calculateAdvancedCount [("dist/secret.js".toList)] true false
        {("dist/secret.js".toList)} {("dist/".toList)}
        ("!dist/secret.js".toList)).1.blockedCount =
      [("dist/secret.js".toList)].countP
        (fun f => isUnderIgnoredDir f
          (releaseDirs ("!dist/secret.js".toList) {("dist/".toList)})) :=
  (directory_blocking [("dist/secret.js".toList)] false {("dist/secret.js".toList)}
    {("dist/".toList)} ("!dist/secret.js".toList) ("dist/".toList)
    (by decide) (by decide)).2.2.1

/-! ## Line-classifier lemmas -/

/-- The escaped-trailing-whitespace branch: the backslash is removed and the
single escaped space or tab survives as the final character. -/
lemma processText_escape (s : Str) (c : Char) (hc : c = ' ' ∨ c = '\t') :
    processText (s ++ ['\\', c]) = s ++ [c] := by
  have hrev : (s ++ ['\\', c]).reverse = c :: '\\' :: s.reverse := by simp
  rcases hc with h | h <;> subst h <;> simp [processText, hrev]

/-- Without a trailing escape, `processText` is the whitespace right-trim. -/
lemma processText_not_escape (line : Str) (h : hasTrailingEscape line = false) :
    processText line = rstrip line := by
  cases hrev : line.reverse with
  | nil => simp [processText, hrev]
  | cons c rest =>
    cases rest with
    | nil => simp [processText, hrev]
    | cons c2 rest2 =>
      have h' : (c2 = '\\' && (c = ' ' || c = '\t')) = false := by
        simpa [hasTrailingEscape, hrev] using h
      simp [processText, hrev, h']

/-- The head of `dropWhile p` never satisfies `p`. -/
lemma head?_dropWhile_false (p : Char → Bool) :
    ∀ (l : Str) (c : Char), (l.dropWhile p).head? = some c → p c = false := by
  intro l
  induction l with
  | nil => intro c h; simp at h
  | cons x xs ih =>
    intro c h
    rw [List.dropWhile_cons] at h
    by_cases hx : p x
    · rw [if_pos hx] at h
      exact ih c h
    · rw [if_neg hx] at h
      simp only [List.head?_cons, Option.some.injEq] at h
      subst h
      simpa using hx

/-- Right-trimming `rstrip` removes a whitespace-only suffix and nothing
else, and never
leaves trailing whitespace. -/
lemma rstrip_spec (line : Str) :
    (∃ t, line = rstrip line ++ t ∧ ∀ c ∈ t, isWsChar c = true) ∧
    (∀ c, (rstrip line).getLast? = some c → isWsChar c = false) := by
  constructor
  · refine ⟨(line.reverse.takeWhile isWsChar).reverse, ?_, ?_⟩
    · simp only [rstrip]
      rw [← List.reverse_append, List.takeWhile_append_dropWhile, List.reverse_reverse]
    · intro c hc
      have hmem : c ∈ line.reverse.takeWhile isWsChar := by simpa using hc
      exact List.mem_takeWhile_imp hmem
  · intro c hc
    simp only [rstrip] at hc
    rw [List.getLast?_reverse] at hc
    exact head?_dropWhile_false isWsChar line.reverse c hc

/-- C7: a line ending in a backslash followed by exactly one space or tab has
the backslash stripped and that single whitespace character kept as the final
character of the processed text; any other line has all trailing whitespace
stripped: the processed text is a prefix of the line, the removed suffix is
all whitespace, and no whitespace remains at the end. -/
theorem trailing_whitespace_handling (line : Str) :
    (∀ c s, (c = ' ' ∨ c = '\t') → line = s ++ ['\\', c] →
      processText line = s ++ [c]) ∧
    (hasTrailingEscape line = false →
      ∃ t, line = processText line ++ t ∧ (∀ c ∈ t, isWsChar c = true) ∧
        ∀ c, (processText line).getLast? = some c → isWsChar c = false) := by
  constructor
  · intro c s hc hline
    subst hline
    exact processText_escape s c hc
  · intro h
    rw [processText_not_escape line h]
    obtain ⟨⟨t, ht1, ht2⟩, hlast⟩ := rstrip_spec line
    exact ⟨t, ht1, ht2, hlast⟩

/-- C7 witness: the line `a\ ` keeps its escaped trailing space with the
backslash removed; the line `a \t ` (no trailing escape) is right-trimmed of
all its trailing whitespace. -/
theorem trailing_whitespace_handling_witness :
    processText ("a".toList ++ ['\\', ' ']) = "a".toList ++ [' '] ∧
    ∃ t, ("a \t ".toList) = processText ("a \t ".toList) ++ t ∧
      (∀ c ∈ t, isWsChar c = true) ∧
      ∀ c, (processText ("a \t ".toList)).getLast? = some c → isWsChar c = false :=
  ⟨(trailing_whitespace_handling ("a".toList ++ ['\\', ' '])).1 ' ' ("a".toList)
      (Or.inl rfl) rfl,
   (trailing_whitespace_handling ("a \t ".toList)).2 (by decide)⟩

/-- C6 counterexample: the classifier does not consume the `!` of a negation
line — `!important.log` is classified with `isNegation = true` but its
returned pattern field still begins with the `!` character (as the
repository's own parser tests assert). -/
theorem negation_bang_not_consumed :
    (parseLine ("!important.log".toList)).isNegation = true ∧
    (parseLine ("!important.log".toList)).pattern.head? = some '!' := by
  decide

/-- C6 (amended): a line whose processed text starts with `!` is classified
as a Pattern with `isNegation = true`, but the `!` is retained: the returned
pattern field is the processed text itself, still beginning with `!` (the
evaluator and matcher strip it downstream). A line starting with `\!` is not
a negation; the backslash is stripped and the literal `!` is the first
character of the returned pattern. -/
theorem negation_classification (line : Str) :
    ((processText line).head? = some '!' →
      (parseLine line).type = LineType.pattern ∧
      (parseLine line).isNegation = true ∧
      (parseLine line).pattern = processText line) ∧
    (['\\', '!'].isPrefixOf (processText line) = true →
      (parseLine line).type = LineType.pattern ∧
      (parseLine line).isNegation = false ∧
      (parseLine line).pattern = (processText line).drop 1 ∧
      (parseLine line).pattern.head? = some '!') := by
  constructor
  · intro hhead
    cases hp : processText line with
    | nil => rw [hp] at hhead; simp at hhead
    | cons c t =>
      rw [hp] at hhead
      simp only [List.head?_cons, Option.some.injEq] at hhead
      subst hhead
      simp [parseLine, hp, List.isPrefixOf_cons₂, List.isPrefixOf_nil_left]
  · intro hpre
    cases hp : processText line with
    | nil => rw [hp] at hpre; simp [List.isPrefixOf] at hpre
    | cons c t =>
      rw [hp] at hpre
      cases t with
      | nil => simp [List.isPrefixOf_cons₂, List.isPrefixOf] at hpre
      | cons c2 t2 =>
        simp only [List.isPrefixOf_cons₂, List.isPrefixOf_nil_left, Bool.and_true,
          Bool.and_eq_true, beq_iff_eq] at hpre
        obtain ⟨hc, hc2⟩ := hpre
        subst hc
        subst hc2
        simp [parseLine, hp, List.isPrefixOf_cons₂, List.isPrefixOf_nil_left]

/-- C6 witness: `!a` is a negation whose pattern keeps the `!`; `\!a` is not
a negation and its pattern starts with a literal `!`. -/
theorem negation_classification_witness :
    ((parseLine ("!a".toList)).type = LineType.pattern ∧
     (parseLine ("!a".toList)).isNegation = true ∧
     (parseLine ("!a".toList)).pattern = processText ("!a".toList)) ∧
    ((parseLine ("\\!a".toList)).type = LineType.pattern ∧
     (parseLine ("\\!a".toList)).isNegation = false ∧
     (parseLine ("\\!a".toList)).pattern = (processText ("\\!a".toList)).drop 1 ∧
     (parseLine ("\\!a".toList)).pattern.head? = some '!') :=
  ⟨(negation_classification ("!a".toList)).1 (by decide),
   (negation_classification ("\\!a".toList)).2 (by decide)⟩

/-- Evaluation of the classifier on a processed text with no special first
character: the processed text is returned verbatim as the pattern. -/
lemma parseLine_other (line : Str) (c : Char) (t : Str)
    (hp : processText line = c :: t)
    (h1 : c ≠ '#') (h2 : c ≠ '\\') (h3 : c ≠ '!') :
    parseLine line =
      ⟨LineType.pattern, c :: t, false, ['/'].isSuffixOf (c :: t), line⟩ := by
  simp [parseLine, hp, List.isPrefixOf_cons₂, List.isPrefixOf_nil_left,
    beq_eq_false_iff_ne, Ne.symm h1, Ne.symm h2, Ne.symm h3]

/-- The classifier reports a comment exactly when the processed text has the
prefix `#`. -/
lemma parseLine_comment_iff (line : Str) :
    (parseLine line).type = LineType.comment ↔
      (['#'].isPrefixOf (processText line)) = true := by
  simp only [parseLine]
  split_ifs with h1 h2 <;>
    first
      | (rw [h1]; decide)
      | exact iff_of_true rfl h2
      | exact iff_of_false (by decide) h2

/-- A one-element list is a Boolean prefix exactly of the lists with that
head. -/
lemma singleton_isPrefixOf_iff_head (a : Char) (l : Str) :
    ([a].isPrefixOf l) = true ↔ l.head? = some a := by
  cases l with
  | nil => simp [List.isPrefixOf]
  | cons c t =>
    rw [List.isPrefixOf_cons₂]
    simp only [List.isPrefixOf_nil_left, Bool.and_true, beq_iff_eq, List.head?_cons,
      Option.some.injEq]
    exact ⟨fun h => h.symm, fun h => h.symm⟩

/-- C10: the classifier reports a Comment exactly when `#` is the very first
character of the processed text (no leading-whitespace trimming); a processed
text of whitespace followed by `#` is classified as a Pattern whose pattern
field is the processed text itself, leading whitespace preserved. -/
theorem comment_only_at_column_zero (line : Str) :
    ((parseLine line).type = LineType.comment ↔
      (processText line).head? = some '#') ∧
    (∀ w rest, processText line = w ++ '#' :: rest → w ≠ [] →
      (∀ c ∈ w, isWsChar c = true) →
      (parseLine line).type = LineType.pattern ∧
      (parseLine line).pattern = processText line) := by
  constructor
  · rw [parseLine_comment_iff, singleton_isPrefixOf_iff_head]
  · intro w rest hp hw hws
    cases w with
    | nil => exact absurd rfl hw
    | cons c w' =>
      have hcw : isWsChar c = true := hws c (by simp)
      have hc_hash : c ≠ '#' := by
        intro h; subst h; exact absurd hcw (by decide)
      have hc_bs : c ≠ '\\' := by
        intro h; subst h; exact absurd hcw (by decide)
      have hc_bang : c ≠ '!' := by
        intro h; subst h; exact absurd hcw (by decide)
      rw [List.cons_append] at hp
      rw [parseLine_other line c (w' ++ '#' :: rest) hp hc_hash hc_bs hc_bang, hp]
      exact ⟨rfl, rfl⟩

/-- C10 witness: the line `  #x` (whitespace before `#`) is a Pattern whose
pattern field keeps the leading whitespace. -/
theorem comment_only_at_column_zero_witness :
    (parseLine ("  #x".toList)).type = LineType.pattern ∧
    (parseLine ("  #x".toList)).pattern = processText ("  #x".toList) :=
  (comment_only_at_column_zero ("  #x".toList)).2 ("  ".toList) ("x".toList)
    (by decide) (by decide) (by decide)

/-! ## Path-matcher claims -/

/-- C8 counterexample: `findMatches` does not deduplicate — handed a
candidate list that already contains a duplicate entry it returns the
duplicate. The glob decision used here (a literal pattern matches the path
equal to it) agrees with the external `ignore` engine on the literal pattern
`.env`, which the repository's matcher tests exercise. -/
theorem findMatches_no_dedup :
    ¬ (findMatches (fun p f => decide (p = f)) (".env".toList)
        [".env".toList, ".env".toList]).matchingFiles.Nodup := by
  decide

/-- C8 (amended): for every glob decision, pattern and candidate list,
`findMatches` returns a sublist (hence subset) of the candidates, echoes the
pattern, computes `isNegation` from the leading `!`, and introduces no
duplicates of its own: whenever the candidate list is duplicate-free, so is
the result (it is a pure function — in the embedding, determinism and
non-mutation of the candidate list are inherent). -/
theorem findMatches_spec (ignores : Str → Str → Bool) (pattern : Str)
    (files : List Str) :
    List.Sublist (findMatches ignores pattern files).matchingFiles files ∧
    (∀ f ∈ (findMatches ignores pattern files).matchingFiles, f ∈ files) ∧
    (findMatches ignores pattern files).pattern = pattern ∧
    (findMatches ignores pattern files).isNegation = ['!'].isPrefixOf pattern ∧
    (files.Nodup → (findMatches ignores pattern files).matchingFiles.Nodup) := by
  refine ⟨List.filter_sublist files, ?_, rfl, rfl, ?_⟩
  · intro f hf
    exact List.mem_of_mem_filter hf
  · intro hnd
    exact hnd.filter _

/-- C8 witness: on a duplicate-free candidate list the matcher result is
duplicate-free. -/
theorem findMatches_spec_witness :
    (findMatches (fun p f => decide (p = f)) (".env".toList)
      [".env".toList, "a.js".toList]).matchingFiles.Nodup :=
  (findMatches_spec (fun p f => decide (p = f)) (".env".toList)
    [".env".toList, "a.js".toList]).2.2.2.2 (by decide)

/-- C2 witness: the explicit directory pattern `dist/` with one matched file
satisfies the three conditions under which a prefix may be acquired. -/
theorem extract_prefix_only_explicit_dir_witness :
    ['/'].isSuffixOf ("dist/".toList) = true ∧
    hasWildcards (("dist/".toList).dropLast) = false ∧
    ["dist/a.js".toList] ≠ [] :=
  (extract_prefix_only_explicit_dir ["dist/a.js".toList] ∅ ∅ ("dist/".toList)).1
    ("dist/".toList) (by decide) (by decide)

/-- C3 witness: the negation `!x/` releases the prefix `x/` even though zero
files match. -/
theorem negation_release_step_witness :
    (calculateAdvancedCount [] true false ∅ {("x/".toList)} ("!x/".toList)).2.2 =
      Finset.erase {("x/".toList)} ("x/".toList) :=
  (negation_release_step [] false ∅ {("x/".toList)} ("!x/".toList) ("x/".toList)
    (by decide)).1

end IgnoreLens
